import Mathlib

/-!
Verification of the Markdown block parser and inline-formatting tokenizer of
`src/portland_nesc/docs/md_to_docx.py` (`parse_markdown`, `add_formatted_text`).

Strings are modelled as `List Char`; Python string operations (`strip`,
`lstrip`, `startswith`, `endswith`, `in`, `split`) are given as small
executable definitions.  The two anchored regular expressions of the source
are compiled by hand to character-level checks, with comments justifying the
compilation.  The `while i < len(lines)` loop of `parse_markdown` is modelled
with explicit fuel, because the loop can genuinely fail to advance its index
(see the nontermination theorems below); the result is the pair of the blocks
accumulated so far and a flag that is `true` exactly when the loop reached the
end of the input before the fuel ran out.
-/

namespace MdToDocx

/-- The character list of a string literal. -/
def chars (s : String) : List Char := s.data

/-- Python `str.isspace` / regex `\s` on the ASCII range: space, tab,
newline, carriage return, vertical tab (11), form feed (12). -/
def isPySpace (c : Char) : Bool :=
  c == ' ' || c == '\t' || c == '\n' || c == '\r' || c.toNat == 11 || c.toNat == 12

/-- Python `s.strip()`: drop leading and trailing whitespace. -/
def pyStrip (s : List Char) : List Char :=
  ((s.dropWhile isPySpace).reverse.dropWhile isPySpace).reverse

/-- Python `s.strip("|")`: drop all leading and trailing `|` characters. -/
def pyStripPipes (s : List Char) : List Char :=
  ((s.dropWhile (· == '|')).reverse.dropWhile (· == '|')).reverse

/-- Python `s.startswith(pre)`. -/
def pyStartswith (pre s : List Char) : Bool := pre.isPrefixOf s

/-- Python `s.endswith(suf)`. -/
def pyEndswith (suf s : List Char) : Bool := suf.isSuffixOf s

/-- Python `"|" in s` (for a single-character needle). -/
def hasPipe (s : List Char) : Bool := s.contains '|'

/-- Python `s.split(sep)` for a one-character separator: the parts between
occurrences of `sep`, including empty parts; always at least one part. -/
def pySplitChar (sep : Char) : List Char → List (List Char)
  | [] => [[]]
  | c :: rest =>
    if c == sep then [] :: pySplitChar sep rest
    else
      match pySplitChar sep rest with
      | p :: ps => (c :: p) :: ps
      | [] => [[c]]

/-- Concatenation of a list of character lists. -/
def joinL (ps : List (List Char)) : List Char := ps.foldr (· ++ ·) []

/-! ## Inline tokenizer (`add_formatted_text`, md_to_docx.py lines 73-90) -/

/-- An inline run, as produced by `add_formatted_text`: the constructor
records the formatting applied to the `docx` run and the argument records the
text passed to `paragraph.add_run`. -/
inductive Run
  | plain (text : List Char)
  | bold (text : List Char)
  | italic (text : List Char)
  | code (text : List Char)
deriving DecidableEq, Repr

/-- The text content of a run (the string passed to `add_run`). -/
def runText : Run → List Char
  | .plain t => t
  | .bold t => t
  | .italic t => t
  | .code t => t

/-- Match of the regex branch `\*\*[^*]+\*\*` at the head of `s`: two stars,
a maximal nonempty run of non-star characters (greedy `[^*]+` — shortening it
cannot help, since the character after a shorter run is still not a star),
then two stars.  Returns the matched text and the rest of the input. -/
def matchBold (s : List Char) : Option (List Char × List Char) :=
  match s with
  | '*' :: '*' :: t =>
    let run := t.takeWhile (fun c => c ≠ '*')
    if run.isEmpty then none
    else
      match t.dropWhile (fun c => c ≠ '*') with
      | '*' :: '*' :: u => some (('*' :: '*' :: run) ++ ['*', '*'], u)
      | _ => none
  | _ => none

/-- Match of the regex branch `` `[^`]+` `` at the head of `s`. -/
def matchCode (s : List Char) : Option (List Char × List Char) :=
  match s with
  | '`' :: t =>
    let run := t.takeWhile (fun c => c ≠ '`')
    if run.isEmpty then none
    else
      match t.dropWhile (fun c => c ≠ '`') with
      | '`' :: u => some ('`' :: run ++ ['`'], u)
      | _ => none
  | _ => none

/-- Match of the regex branch `\*[^*]+\*` at the head of `s`. -/
def matchItalic (s : List Char) : Option (List Char × List Char) :=
  match s with
  | '*' :: t =>
    let run := t.takeWhile (fun c => c ≠ '*')
    if run.isEmpty then none
    else
      match t.dropWhile (fun c => c ≠ '*') with
      | '*' :: u => some ('*' :: run ++ ['*'], u)
      | _ => none
  | _ => none

/-- Match of the full alternation ``\*\*[^*]+\*\*|`[^`]+`|\*[^*]+\*`` at the
head of `s`: the branches are tried in the order they are written, as a
Python regex alternation does. -/
def matchAt (s : List Char) : Option (List Char × List Char) :=
  match matchBold s with
  | some r => some r
  | none =>
    match matchCode s with
    | some r => some r
    | none => matchItalic s

/-- The scan of ``re.split(r"(\*\*[^*]+\*\*|`[^`]+`|\*[^*]+\*)", text)``:
walk left to right; at each position try the alternation; on a match emit the
gap accumulated so far and the matched separator (the capturing group makes
`re.split` keep it) and continue after the match; otherwise shift one
character into the gap.  `fuel` only serves termination: every step consumes
at least one input character, so `s.length + 1` is always enough and the
fuel-exhaustion branch is never reached from `markerSplit`. -/
def splitGo : Nat → List Char → List Char → List (List Char)
  | 0, acc, s => [acc.reverse ++ s]
  | fuel + 1, acc, s =>
    match s with
    | [] => [acc.reverse]
    | c :: rest =>
      match matchAt (c :: rest) with
      | some (m, after) => acc.reverse :: m :: splitGo fuel [] after
      | none => splitGo fuel (c :: acc) rest

/-- `re.split` on the three inline-marker patterns (md_to_docx.py line 76). -/
def markerSplit (s : List Char) : List (List Char) :=
  splitGo (s.length + 1) [] s

/-- Classification of one part of the split (md_to_docx.py lines 78-90):
`part[2:-2]` is `(p.drop 2).dropLast.dropLast`, `part[1:-1]` is
`(p.drop 1).dropLast`, with the same clamping as Python slices. -/
def classifyPart (p : List Char) : Run :=
  if pyStartswith (chars "**") p && pyEndswith (chars "**") p then
    .bold ((p.drop 2).dropLast.dropLast)
  else if pyStartswith (chars "`") p && pyEndswith (chars "`") p then
    .code ((p.drop 1).dropLast)
  else if pyStartswith (chars "*") p && pyEndswith (chars "*") p
      && !pyStartswith (chars "**") p then
    .italic ((p.drop 1).dropLast)
  else
    .plain p

/-- The run sequence `add_formatted_text` adds to its paragraph: one run per
part of the marker split, in order. -/
def tokenize (s : List Char) : List Run := (markerSplit s).map classifyPart

/-- Concatenation of the text content of a run list. -/
def joinRunText (rs : List Run) : List Char := joinL (rs.map runText)

/-! ## Block segmenter (`parse_markdown`, md_to_docx.py lines 12-70) -/

/-- A block of the parsed document, mirroring the dictionaries appended to
`blocks` by `parse_markdown`. -/
inductive Block
  | heading (level : Nat) (text : List Char)
  | code (text : List Char)
  | table (rows : List (List (List Char)))
  | paragraph (text : List Char)
deriving DecidableEq, Repr

/-- Line 21: `line.startswith("#")` (on the raw line, not its stripped
content). -/
def isHeadingLine (l : List Char) : Bool := pyStartswith (chars "#") l

/-- Line 29: `line.strip() in ("---", "***", "___")`. -/
def isHR (l : List Char) : Bool :=
  pyStrip l == chars "---" || pyStrip l == chars "***" || pyStrip l == chars "___"

/-- Lines 34 and 38: `line.strip().startswith("```")`. -/
def isFence (l : List Char) : Bool := pyStartswith (chars "```") (pyStrip l)

/-- Characters of the regex class `[\s\-:|]`. -/
def isSepChar (c : Char) : Bool := isPySpace c || c == '-' || c == ':' || c == '|'

/-- Semantics of the anchored regex `^\s*\|[\s\-:|]+\|\s*$` (line 46):
optional whitespace, a `|`, one or more characters of `[\s\-:|]`, a `|`,
optional whitespace, end.  Since `|` is not whitespace, the leading `\s*` of
any successful match is exactly the maximal leading whitespace run and the
trailing `\s*` exactly the maximal trailing one; so the regex matches `s` iff
the whitespace-stripped line starts and ends with `|` and has at least one
character, all from the class, strictly between them. -/
def sepHeaderMatch (s : List Char) : Bool :=
  let t := pyStrip s
  decide (3 ≤ t.length) && t.head? == some '|' && t.getLast? == some '|'
    && ((t.drop 1).dropLast.all isSepChar)

/-- Line 46 lookahead: `i + 1 < len(lines) and re.match(sep, lines[i + 1])`. -/
def nextIsSep : List (List Char) → Bool
  | [] => false
  | next :: _ => sepHeaderMatch next

/-- Line 49: `[c.strip() for c in lines[i].strip().strip("|").split("|")]`. -/
def cellsOf (l : List Char) : List (List Char) :=
  (pySplitChar '|' (pyStripPipes (pyStrip l))).map pyStrip

/-- Line 51: `re.match(r"^[\s\-:|]+$", lines[i].strip().strip("|"))` — the
stripped line with outer pipes removed is nonempty and consists only of
characters of `[\s\-:|]`. -/
def sepRowMatch (l : List Char) : Bool :=
  let u := pyStripPipes (pyStrip l)
  !u.isEmpty && u.all isSepChar

/-- Lines 47-53, the table-collection loop: consume lines while they contain
`|`; a line matching the separator-row pattern is consumed but contributes no
row, every other consumed line contributes its cell list. -/
def collectRows : List (List Char) → List (List (List Char))
  | [] => []
  | l :: ls =>
    if hasPipe l then
      if sepRowMatch l then collectRows ls else cellsOf l :: collectRows ls
    else []

/-- Line 64 guard of the paragraph loop:
`lines[i].strip() and not lines[i].startswith("#") and
not lines[i].strip().startswith("```") and
not ("|" in lines[i] and i + 1 < len(lines) and "|" in lines[i + 1])`,
where `ls` is the list of lines after the current one. -/
def paraGuard (l : List Char) (ls : List (List Char)) : Bool :=
  !(pyStrip l).isEmpty && !isHeadingLine l && !isFence l
    && !(hasPipe l && (match ls with | [] => false | next :: _ => hasPipe next))

/-- The lines the paragraph loop (lines 63-66) consumes. -/
def paraTake : List (List Char) → List (List Char)
  | [] => []
  | l :: ls => if paraGuard l ls then l :: paraTake ls else []

/-- The lines left after the paragraph loop. -/
def paraDrop : List (List Char) → List (List Char)
  | [] => []
  | l :: ls => if paraGuard l ls then paraDrop ls else l :: ls

/-- Prepend a block to a partial parse result. -/
def consBlock (b : Block) (p : List Block × Bool) : List Block × Bool :=
  (b :: p.1, p.2)

/-- The `while i < len(lines)` loop of `parse_markdown` (lines 17-69), with
the cursor `i` replaced by the suffix of the line list that starts at `i`
(`i + 1 < len(lines)` becomes "the tail is nonempty", `lines[i + 1]` its
head; no branch inspects lines before the cursor).  The loop body does not
always advance the cursor — the paragraph branch consumes nothing when its
guard rejects the current line — so one unit of fuel is spent per iteration;
the result pairs the blocks built so far with `true` iff the loop exhausted
the input before the fuel ran out. -/
def parseLoop : Nat → List (List Char) → List Block × Bool
  | _, [] => ([], true)
  | 0, _ :: _ => ([], false)
  | fuel + 1, line :: rest =>
    if isHeadingLine line then
      -- lines 21-26
      consBlock
        (Block.heading ((line.takeWhile (· == '#')).length)
          (pyStrip (line.dropWhile (· == '#'))))
        (parseLoop fuel rest)
    else if isHR line then
      -- lines 29-31
      parseLoop fuel rest
    else if isFence line then
      -- lines 34-43: the language tag is computed and discarded; the close
      -- fence (when present) is skipped by the final `i += 1`
      consBlock
        (Block.code (List.intercalate ['\n']
          (rest.takeWhile (fun l => !isFence l))))
        (parseLoop fuel ((rest.dropWhile (fun l => !isFence l)).drop 1))
    else if hasPipe line && nextIsSep rest then
      -- lines 46-55
      consBlock
        (Block.table (collectRows (line :: rest)))
        (parseLoop fuel ((line :: rest).dropWhile hasPipe))
    else if (pyStrip line).isEmpty then
      -- lines 58-60
      parseLoop fuel rest
    else
      -- lines 62-68
      let p := parseLoop fuel (paraDrop (line :: rest))
      if (paraTake (line :: rest)).isEmpty then p
      else consBlock (Block.paragraph (List.intercalate [' '] (paraTake (line :: rest)))) p

/-- `parse_markdown(text)` (lines 12-70): split the text on newlines and run
the block loop, with the given fuel bounding the number of loop iterations. -/
def parse_markdown (fuel : Nat) (text : List Char) : List Block × Bool :=
  parseLoop fuel (pySplitChar '\n' text)

/-- The segmenter on an explicit line list (the spec's `segment`), run with
enough fuel for any terminating parse: every loop iteration that does not
repeat the state forever consumes at least one line. -/
def segment (lines : List (List Char)) : List Block × Bool :=
  parseLoop (lines.length + 1) lines

/-! ## Helper lemmas about the tokenizer -/

theorem matchBold_eq {s m u : List Char} (h : matchBold s = some (m, u)) :
    m ++ u = s := by
  unfold matchBold at h
  split at h
  next t =>
    simp only [] at h
    split at h
    · exact absurd h (by simp)
    · split at h
      next u2 heq =>
        injection h with h1
        injection h1 with hm hu
        subst hm; subst hu
        have ht := List.takeWhile_append_dropWhile (p := fun c => decide (c ≠ '*')) (l := t)
        simp only [List.cons_append, List.append_assoc, List.singleton_append,
          List.nil_append]
        rw [← heq, ht]
      next => exact absurd h (by simp)
  next => exact absurd h (by simp)

theorem matchCode_eq {s m u : List Char} (h : matchCode s = some (m, u)) :
    m ++ u = s := by
  unfold matchCode at h
  split at h
  next t =>
    simp only [] at h
    split at h
    · exact absurd h (by simp)
    · split at h
      next u2 heq =>
        injection h with h1
        injection h1 with hm hu
        subst hm; subst hu
        have ht := List.takeWhile_append_dropWhile (p := fun c => decide (c ≠ '`')) (l := t)
        simp only [List.cons_append, List.append_assoc, List.singleton_append,
          List.nil_append]
        rw [← heq, ht]
      next => exact absurd h (by simp)
  next => exact absurd h (by simp)

theorem matchItalic_eq {s m u : List Char} (h : matchItalic s = some (m, u)) :
    m ++ u = s := by
  unfold matchItalic at h
  split at h
  next t =>
    simp only [] at h
    split at h
    · exact absurd h (by simp)
    · split at h
      next u2 heq =>
        injection h with h1
        injection h1 with hm hu
        subst hm; subst hu
        have ht := List.takeWhile_append_dropWhile (p := fun c => decide (c ≠ '*')) (l := t)
        simp only [List.cons_append, List.append_assoc, List.singleton_append,
          List.nil_append]
        rw [← heq, ht]
      next => exact absurd h (by simp)
  next => exact absurd h (by simp)

theorem matchAt_eq {s m u : List Char} (h : matchAt s = some (m, u)) :
    m ++ u = s := by
  unfold matchAt at h
  cases hb : matchBold s with
  | some r =>
    rw [hb] at h
    injection h with h1
    subst h1
    exact matchBold_eq hb
  | none =>
    rw [hb] at h
    cases hc : matchCode s with
    | some r =>
      rw [hc] at h
      injection h with h1
      subst h1
      exact matchCode_eq hc
    | none =>
      rw [hc] at h
      exact matchItalic_eq h

/-- Joining the parts produced by the split scan restores the gap accumulated
so far followed by the unscanned input. -/
theorem splitGo_join (fuel : Nat) : ∀ acc s : List Char,
    joinL (splitGo fuel acc s) = acc.reverse ++ s := by
  induction fuel with
  | zero => intro acc s; simp [splitGo, joinL]
  | succ fuel ih =>
    intro acc s
    cases s with
    | nil => simp [splitGo, joinL]
    | cons c rest =>
      simp only [splitGo]
      cases hm : matchAt (c :: rest) with
      | none =>
        rw [ih]
        simp
      | some r =>
        obtain ⟨m, u⟩ := r
        have hmu : m ++ u = c :: rest := matchAt_eq hm
        simp only [joinL, List.foldr_cons] at *
        rw [ih [] u]
        simp only [List.reverse_nil, List.nil_append, List.append_assoc]
        rw [hmu]

/-! ## Helper lemmas about the segmenter -/

/-- A line strips to the empty string exactly when all its characters are
whitespace. -/
theorem pyStrip_eq_nil_iff {l : List Char} :
    pyStrip l = [] ↔ ∀ c ∈ l, isPySpace c = true := by
  unfold pyStrip
  rw [List.reverse_eq_nil_iff, List.dropWhile_eq_nil_iff]
  constructor
  · intro h c hc
    rcases (List.takeWhile_append_dropWhile (p := isPySpace) (l := l)) ▸ hc
        |> List.mem_append.mp with h1 | h1
    · exact List.mem_takeWhile_imp h1
    · exact h c (List.mem_reverse.mpr h1)
  · intro h c hc
    exact h c ((List.dropWhile_sublist _).mem (List.mem_reverse.mp hc))

/-- A line containing a pipe does not strip to the empty string. -/
theorem hasPipe_strip_not_empty {l : List Char} (h : hasPipe l = true) :
    (pyStrip l).isEmpty = false := by
  rw [List.isEmpty_eq_false_iff_exists_mem]
  by_contra hne
  push_neg at hne
  have hnil : pyStrip l = [] := List.eq_nil_iff_forall_not_mem.mpr hne
  have := pyStrip_eq_nil_iff.mp hnil '|' (by
    simpa [hasPipe, List.contains_iff_exists_mem_beq] using h)
  simp [isPySpace] at this

/-- When the current and the next line both contain a pipe but the next line
does not match the table-separator regex, and the current line triggers none
of the earlier branches, the loop of `parse_markdown` makes no progress: no
fuel ever completes the parse and no block is ever produced.  (This is the
nontermination defect of the paragraph branch, whose guard only tests that
the next line contains `|` while the table branch requires the full separator
pattern.) -/
theorem parseLoop_stuck (fuel : Nat) (line next : List Char)
    (rest : List (List Char))
    (h1 : isHeadingLine line = false) (h2 : isHR line = false)
    (h3 : isFence line = false) (h4 : hasPipe line = true)
    (h5 : hasPipe next = true) (h6 : sepHeaderMatch next = false) :
    parseLoop fuel (line :: next :: rest) = ([], false) := by
  induction fuel with
  | zero => rfl
  | succ fuel ih =>
    have hguard : paraGuard line (next :: rest) = false := by
      simp [paraGuard, h4, h5]
    have hblank := hasPipe_strip_not_empty h4
    simp only [parseLoop, h1, h2, h3, h4, h5, h6, nextIsSep, hblank, hguard,
      paraTake, paraDrop, Bool.false_eq_true, if_false, Bool.and_false,
      Bool.true_and, List.isEmpty_nil, if_true]
    exact ih

/-! ## The claims -/

/-- C1: the claim says `parse_markdown` terminates on every finite input with
a single bounded pass.  The code does not: on the two-line text `"a|b\nx|y"`
the table lookahead fails (the second line is not a separator row), yet the
paragraph loop's guard rejects the first line because both it and its
successor contain `|`; no branch advances the cursor, so the `while` loop
runs forever.  Formally: no amount of fuel completes the parse, and no block
is ever produced. -/
theorem C1_parse_markdown_diverges (fuel : Nat) :
    parse_markdown fuel (chars "a|b\nx|y") = ([], false) := by
  have hsplit : pySplitChar '\n' (chars "a|b\nx|y")
      = [chars "a|b", chars "x|y"] := by decide
  rw [parse_markdown, hsplit]
  exact parseLoop_stuck fuel (chars "a|b") (chars "x|y") []
    (by decide) (by decide) (by decide) (by decide) (by decide) (by decide)

/-- C2 counterexample: the claim says concatenating the text content of the
runs of `tokenize s` reproduces `s` exactly.  It does not: the markers are
stripped from the run text, so for `s = "*a*"` the concatenation is `"a"`. -/
theorem C2_counterexample :
    joinRunText (tokenize (chars "*a*")) = chars "a"
      ∧ chars "a" ≠ chars "*a*" := by
  exact ⟨by decide, by decide⟩

/-- C2 amended: the tokenization is lossless at the fragment level — the
fragments of the marker split from which `add_formatted_text` produces its
runs are non-overlapping, cover the input with no gaps, and concatenate, in
order, back to the input exactly; it is the run text (one layer of marker
characters stripped) whose concatenation can differ from the input. -/
theorem C2_split_lossless (s : List Char) : joinL (markerSplit s) = s := by
  rw [markerSplit, splitGo_join]
  rfl

/-- C3: the claim says a stray marker with no matching closer is emitted as
literal `Plain` text with the marker unchanged.  On the input `"*"` the code
instead emits a single `Italic` run with empty text: the lone fragment `"*"`
both starts and ends with `*` (they are the same character), so the italic
branch fires and `part[1:-1]` strips the marker away entirely. -/
theorem C3_stray_marker_not_plain :
    tokenize (chars "*") = [Run.italic []]
      ∧ [Run.italic []] ≠ [Run.plain (chars "*")] := by
  exact ⟨by decide, by decide⟩

/-- C4 counterexample: the claim describes the separator lookahead as "after
trimming and stripping leading/trailing `|`, the line consists solely of
`-`, `:`, `|`, and whitespace".  The line `"---"` satisfies that description,
yet the code's regex `^\s*\|[\s\-:|]+\|\s*$` also demands a leading and a
trailing `|`; so on `["a|b", "---"]` the code emits a single paragraph and no
table, although the claim's pattern accepts the second line. -/
theorem C4_counterexample :
    (let u := pyStripPipes (pyStrip (chars "---"));
      u ≠ [] ∧ u.all isSepChar = true)
      ∧ segment [chars "a|b", chars "---"]
          = ([Block.paragraph (chars "a|b ---")], true) := by
  exact ⟨⟨by decide, by decide⟩, by decide⟩

/-- C4 amended: a line containing at least one `|` is a candidate table
header row iff the next line exists and, after trimming whitespace, starts
with `|`, ends with `|`, and has at least one character, all drawn from `-`,
`:`, `|`, and whitespace, strictly between them (`sepHeaderMatch`); exactly
then does the step emit a `Table` block, and otherwise the line falls
through to the paragraph branch (which, when the next line also contains a
`|`, consumes nothing — see C1). -/
theorem C4_lookahead_iff (line next : List Char) (rest : List (List Char))
    (fuel : Nat)
    (h1 : isHeadingLine line = false) (h2 : isHR line = false)
    (h3 : isFence line = false) (h4 : hasPipe line = true) :
    (parseLoop (fuel + 1) (line :: next :: rest)).1.head?
        = some (Block.table (collectRows (line :: next :: rest)))
      ↔ sepHeaderMatch next = true := by
  have hblank := hasPipe_strip_not_empty h4
  cases hsep : sepHeaderMatch next with
  | true =>
    simp [parseLoop, h1, h2, h3, h4, nextIsSep, hsep, consBlock]
  | false =>
    simp only [iff_false, Bool.true_eq_false, not_true_eq_false,
      Bool.false_eq_true]
    cases hp : hasPipe next with
    | true =>
      rw [parseLoop_stuck (fuel + 1) line next rest h1 h2 h3 h4 hp hsep]
      simp
    | false =>
      have hguard : paraGuard line (next :: rest) = true := by
        simp [paraGuard, h1, h3, hblank, hp]
      simp only [parseLoop, h1, h2, h3, h4, hsep, nextIsSep, hblank, hguard,
        paraTake, paraDrop, Bool.and_false, Bool.false_eq_true, if_false,
        List.isEmpty_cons, if_true]
      simp [consBlock]

/-- C4 witness: at `["a|b", "|---|"]` the lookahead succeeds and the step
emits the table whose only row is the header cells. -/
theorem C4_lookahead_iff_witness :
    (parseLoop 1 [chars "a|b", chars "|---|"]).1.head?
      = some (Block.table [[chars "a", chars "b"]]) := by
  have h := (C4_lookahead_iff (chars "a|b") (chars "|---|") [] 0
    (by decide) (by decide) (by decide) (by decide)).mpr (by decide)
  exact h.trans (by decide)

/-- C5: the claim says paragraph accumulation continues while the next line
is non-blank, not a heading, not a fence, and not a table header+separator
pair.  The code's guard instead stops as soon as the current line and its
successor both contain `|`, whether or not the successor is a separator row;
on `["p q", "a|b", "x|y"]` (no blank line, no heading, no fence, no
separator row anywhere) the claim predicts one paragraph `"p q a|b x|y"`,
but the code closes the paragraph after `"p q"` and then loops forever on
the remaining two lines. -/
theorem C5_paragraph_guard_diverges (fuel : Nat) :
    parseLoop (fuel + 1) [chars "p q", chars "a|b", chars "x|y"]
      = ([Block.paragraph (chars "p q")], false) := by
  have hstep : parseLoop (fuel + 1) [chars "p q", chars "a|b", chars "x|y"]
      = consBlock (Block.paragraph (chars "p q"))
          (parseLoop fuel [chars "a|b", chars "x|y"]) := by
    simp only [parseLoop]
    norm_num [isHeadingLine, isHR, isFence, hasPipe, nextIsSep, paraTake,
      paraDrop, paraGuard]
    rfl
  rw [hstep, parseLoop_stuck fuel (chars "a|b") (chars "x|y") []
    (by decide) (by decide) (by decide) (by decide) (by decide) (by decide)]
  rfl

/-- C6 counterexample: the claim quantifies over lines whose *stripped*
content starts with `#`, but the code tests the raw line; a heading preceded
by a space is treated as a paragraph, not a heading. -/
theorem C6_counterexample :
    (pyStrip (chars " # Title")).head? = some '#'
      ∧ segment [chars " # Title"]
          = ([Block.paragraph (chars " # Title")], true) := by
  exact ⟨by decide, by decide⟩

/-- C6 amended: for every line that itself starts with `#` (the check is on
the raw line, so no leading whitespace is allowed), the segmenter emits
`Heading{level, text}` with `level` the number of leading `#` characters and
`text` the remainder after the leading `#` run, trimmed of whitespace, and
advances the cursor by exactly one line. -/
theorem C6_heading_step (line : List Char) (rest : List (List Char))
    (fuel : Nat) (h : isHeadingLine line = true) :
    parseLoop (fuel + 1) (line :: rest)
      = consBlock
          (Block.heading ((line.takeWhile (· == '#')).length)
            (pyStrip (line.dropWhile (· == '#'))))
          (parseLoop fuel rest) := by
  simp [parseLoop, h]

/-- C6 witness: `segment ["### Title"]` yields exactly one
`Heading{level 3, "Title"}`. -/
theorem C6_heading_step_witness :
    isHeadingLine (chars "### Title") = true
      ∧ parseLoop 1 [chars "### Title"]
          = ([Block.heading 3 (chars "Title")], true) := by
  refine ⟨by decide, ?_⟩
  have h := C6_heading_step (chars "### Title") [] 0 (by decide)
  exact h.trans (by decide)

/-- C7: `segment` on the four-line table yields exactly one `Table` whose
rows are the header and the two data rows, with the separator row absent;
and in general the rows of a collected table are exactly the cell lists of
the consumed pipe-containing lines that do not match the separator-row
pattern, in encounter order — a separator row is consumed but never appears
among the rows, and the first retained row is the header. -/
theorem C7_table_rows :
    segment [chars "|H1|H2|", chars "|---|---|", chars "|a|b|", chars "|c|d|"]
        = ([Block.table [[chars "H1", chars "H2"], [chars "a", chars "b"],
            [chars "c", chars "d"]]], true)
      ∧ ∀ ls : List (List Char),
          collectRows ls
            = ((ls.takeWhile hasPipe).filter (fun l => !sepRowMatch l)).map
                cellsOf := by
  refine ⟨by decide, ?_⟩
  intro ls
  induction ls with
  | nil => rfl
  | cons l ls ih =>
    cases hp : hasPipe l with
    | false => simp [collectRows, List.takeWhile_cons, hp]
    | true =>
      cases hs : sepRowMatch l with
      | true => simp [collectRows, List.takeWhile_cons, hp, hs, ih]
      | false => simp [collectRows, List.takeWhile_cons, hp, hs, ih]

/-- C8: a fence line opens a code block; when no later line is a fence line,
the code branch consumes every remaining line verbatim and emits a single
`CodeBlock` joining them with newlines, and the parse completes without
error. -/
theorem C8_unterminated_fence (line : List Char) (rest : List (List Char))
    (fuel : Nat)
    (h1 : isHeadingLine line = false) (h2 : isHR line = false)
    (h3 : isFence line = true) (h4 : ∀ l ∈ rest, isFence l = false) :
    parseLoop (fuel + 1) (line :: rest)
      = ([Block.code (List.intercalate ['\n'] rest)], true) := by
  have ht : rest.takeWhile (fun l => !isFence l) = rest :=
    List.takeWhile_eq_self_iff.mpr (by intro l hl; simp [h4 l hl])
  have hd : rest.dropWhile (fun l => !isFence l) = [] :=
    List.dropWhile_eq_nil_iff.mpr (by intro l hl; simp [h4 l hl])
  simp [parseLoop, h1, h2, h3, ht, hd, consBlock]

/-- C8 witness: `segment ["```", "line1", "line2"]` (no closing fence)
yields one `CodeBlock{"line1\nline2"}`. -/
theorem C8_unterminated_fence_witness :
    isFence (chars "```") = true
      ∧ (∀ l ∈ [chars "line1", chars "line2"], isFence l = false)
      ∧ parseLoop 1 [chars "```", chars "line1", chars "line2"]
          = ([Block.code (chars "line1\nline2")], true) := by
  refine ⟨by decide, by decide, ?_⟩
  have h := C8_unterminated_fence (chars "```") [chars "line1", chars "line2"]
    0 (by decide) (by decide) (by decide) (by decide)
  exact h.trans (by decide)

/-- C9 counterexample: the claim says the run sequence is exactly
`[Bold "bold", Plain " and ", Italic "italic"]`, but `re.split` also yields
empty fragments where a match touches the start or end of the string, and
the code adds a run for every fragment, empty ones included. -/
theorem C9_counterexample :
    tokenize (chars "**bold** and *italic*")
      ≠ [Run.bold (chars "bold"), Run.plain (chars " and "),
         Run.italic (chars "italic")] := by
  decide

/-- C9 amended: the bold marker is matched before the single-star italic
marker, so the run sequence is `[Plain "", Bold "bold", Plain " and ",
Italic "italic", Plain ""]` — the claimed three runs in order, with the
empty `Plain` runs the boundary fragments of the split add. -/
theorem C9_bold_before_italic :
    tokenize (chars "**bold** and *italic*")
      = [Run.plain [], Run.bold (chars "bold"), Run.plain (chars " and "),
         Run.italic (chars "italic"), Run.plain []] := by
  decide

/-- C10: a `Table` block with an empty row list is a possible output: on
`["|---|", "|---|---|"]` the lookahead succeeds but every consumed line
matches the separator-row pattern, so the emitted table has no rows at
all — in particular no header row at position 0. -/
theorem C10_empty_table :
    segment [chars "|---|", chars "|---|---|"] = ([Block.table []], true) := by
  decide

end MdToDocx
